import Mathlib

/-!
Shallow embedding of the record store of `dummy_rollup`:

* `src/database.rs` — the scan-variant `DatabaseClient` layered on an external
  blob ledger (Celestia).  The ledger is modelled as a function
  `fetch : Nat → Option (List Blob)` giving, for each height, either the list
  of blobs at that height (`some blobs`) or a fetch failure (`none`; the Rust
  `get_blobs_at_height` also turns an absent blob set into an error, so both
  are that case).  A blob is a byte payload classified by trial decode, so it
  is modelled by its two independent decode outcomes (`serde_json::from_slice`
  against `DatabaseMetadata` and against `Record` are independent attempts).
  The current head height and the wall-clock time are explicit parameters.

* `src/schema.rs` — the indexed `DatabaseMetadata` with an id → height index
  and a tombstone set.  `HashMap` is modelled as an association list
  (insert replaces the binding of an existing key, otherwise adds one;
  remove drops the key), `HashSet` as a list with membership-guarded insert.

`u64` counters are modelled as `Nat`; Rust's debug-build overflow/underflow
panic is outside the embedding, and the no-underflow claim for
`delete_record` is proved explicitly (`record_count` is at least one whenever
the decrement fires).
-/

set_option maxHeartbeats 1000000

namespace DummyRollup

namespace Database

/-- Modelled from the spec: the scan variant's `DataRecord`.  `src/database.rs`
only reads the field `key` (`record.key == key`); the rest of the payload is
abstracted as `data`. -/
structure Record where
  key : String
  data : List Nat
  deriving DecidableEq, Repr

/-- Modelled from the spec: the scan variant's `MetadataRecord`, with exactly
the fields `src/database.rs` constructs and reads (`start_height`,
`record_count`, `last_updated`); timestamps are modelled as `Nat`. -/
structure DatabaseMetadata where
  start_height : Nat
  record_count : Nat
  last_updated : Nat
  deriving DecidableEq, Repr

/-- A ledger blob, modelled by its two independent trial-decode outcomes:
`asMeta` is the result of `serde_json::from_slice::<DatabaseMetadata>` and
`asRecord` the result of `serde_json::from_slice::<Record>`. -/
structure Blob where
  asMeta : Option DatabaseMetadata
  asRecord : Option Record
  deriving DecidableEq, Repr

/-- The ledger interface used by the scans: blobs per height, or a fetch
failure (including the "no blobs found" case that `get_blobs_at_height`
turns into an error). -/
def Fetch : Type := Nat → Option (List Blob)

/-- The descending height range `[hi, hi-1, …, lo]` (empty when `hi < lo`),
as iterated by `for height in (lo..=hi).rev()`; fuel-based so that the
recursion is structural. -/
def downRangeAux : Nat → Nat → List Nat
  | _, 0 => []
  | hi, n + 1 => hi :: downRangeAux (hi - 1) n

def downRange (lo hi : Nat) : List Nat :=
  downRangeAux hi (hi + 1 - lo)

/-- The metadata decoded at height `h`: first blob at `h` that parses as
`DatabaseMetadata`; `none` on fetch failure or when no blob parses
(`discover_database`'s per-height body). -/
def posMeta (fetch : Fetch) (h : Nat) : Option DatabaseMetadata :=
  match fetch h with
  | none => none
  | some blobs => blobs.findSome? (fun b => b.asMeta)

/-- The lower end of the discovery window computed by `discover_database`:
`latest_height - limit` when `latest_height > limit` else `1`, the limit
defaulting to `100` when `search_limit` is absent. -/
def searchStart (head : Nat) (search_limit : Option Nat) : Nat :=
  match search_limit with
  | some limit => if limit < head then head - limit else 1
  | none => if 100 < head then head - 100 else 1

/-- Embeds `DatabaseClient::discover_database`: scan heights from `head` down to
`searchStart`, skipping failed fetches, returning the first blob that decodes
as `DatabaseMetadata`. -/
def discover_database (fetch : Fetch) (head : Nat) (search_limit : Option Nat) :
    Option DatabaseMetadata :=
  (downRange (searchStart head search_limit) head).findSome? (posMeta fetch)

/-- The record for `key` found at height `h`: first blob at `h` that parses as
`Record` and whose `key` equals the requested key; `none` on fetch failure
(`get_record`'s per-height body). -/
def posRecord (fetch : Fetch) (key : String) (h : Nat) : Option Record :=
  match fetch h with
  | none => none
  | some blobs =>
      blobs.findSome? (fun b =>
        match b.asRecord with
        | some r => if r.key = key then some r else none
        | none => none)

/-- The scan's lower bound: `metadata.start_height` when metadata is present,
else the fallback `1`. -/
def scanStart (metadata : Option DatabaseMetadata) : Nat :=
  match metadata with
  | some m => m.start_height
  | none => 1

/-- Embeds `DatabaseClient::get_record`: scan heights from `head` down to the
metadata's `start_height` (fallback `1`), skipping failed fetches, returning
the first decoded record whose key matches; `none` (Rust `Ok(None)`) when the
scan is exhausted. -/
def get_record (fetch : Fetch) (head : Nat) (metadata : Option DatabaseMetadata)
    (key : String) : Option Record :=
  (downRange (scanStart metadata) head).findSome? (posRecord fetch key)

/-- The records decoded at height `h`, in blob order; `[]` on fetch failure
(`list_records`'s per-height body before deduplication). -/
def heightRecords (fetch : Fetch) (h : Nat) : List Record :=
  match fetch h with
  | none => []
  | some blobs => blobs.filterMap (fun b => b.asRecord)

/-- All records seen by a full descending scan of `[lo, hi]`, in encounter
order (height descending, blob order within a height). -/
def scanSeq (fetch : Fetch) (lo hi : Nat) : List Record :=
  (downRange lo hi).flatMap (heightRecords fetch)

/-- The first record with the given key in a list of records (the
"first occurrence encountered" of a scan sequence). -/
def firstMatch (key : String) (rs : List Record) : Option Record :=
  rs.findSome? (fun r => if r.key = key then some r else none)

/-- One `list_records` map update: `if !records_map.contains_key(&record.key)
{ records_map.insert(record.key.clone(), record) }`.  The `HashMap` is
modelled as an association list; the new binding is appended, which is
immaterial since `into_values` order is unspecified. -/
def listStep (m : List (String × Record)) (r : Record) : List (String × Record) :=
  if m.any (fun p => p.1 == r.key) then m else m ++ [(r.key, r)]

/-- Embeds `DatabaseClient::list_records`: scan heights from `head` down to the
metadata's `start_height` (fallback `1`), skipping failed fetches, keeping
for each key only the first record encountered.  The Rust function returns
`records_map.into_values()` in unspecified order; the model exposes the
key-to-record map itself. -/
def list_records (fetch : Fetch) (head : Nat) (metadata : Option DatabaseMetadata) :
    List (String × Record) :=
  (downRange (scanStart metadata) head).foldl
    (fun m h => (heightRecords fetch h).foldl listStep m) []

/-- A payload handed to `blob_submit`, tagged by which struct it serializes. -/
inductive Payload where
  | record (r : Record)
  | metadata (m : DatabaseMetadata)
  deriving DecidableEq, Repr

/-- Outcome of `DatabaseClient::add_record`: the batches passed to
`blob_submit` (one inner list per call), the in-memory `self.metadata` after
the call returns, and whether the call returned `Ok` (`blob_submit`'s result
is propagated with `?`). -/
structure AddOutcome where
  submissions : List (List Payload)
  metaAfter : Option DatabaseMetadata
  ok : Bool
  deriving DecidableEq, Repr

/-- Embeds `DatabaseClient::add_record`: build the record blob; when metadata is
present, also build the updated metadata blob (`record_count + 1`,
`last_updated := now`) and update `self.metadata` — this happens BEFORE the
single `blob_submit` call — then submit all blobs in one batch, propagating
the submission outcome `submitOk`. -/
def add_record (metadata : Option DatabaseMetadata) (r : Record) (now : Nat)
    (submitOk : Bool) : AddOutcome :=
  match metadata with
  | some m =>
      let m' : DatabaseMetadata :=
        { start_height := m.start_height
          record_count := m.record_count + 1
          last_updated := now }
      { submissions := [[Payload.record r, Payload.metadata m']]
        metaAfter := some m'
        ok := submitOk }
  | none =>
      { submissions := [[Payload.record r]]
        metaAfter := none
        ok := submitOk }

/-- Replace every failed fetch by an empty blob set: the "nothing here"
reading of per-position failures. -/
def patchFetch (fetch : Fetch) : Fetch :=
  fun h => some ((fetch h).getD [])

end Database

namespace Schema

/-- Embeds `schema.rs`'s `DatabaseMetadata`: record count, id → height index
(`HashMap` as an association list), tombstone set (`HashSet` as a list),
last-update timestamp (as `Nat`). -/
structure DatabaseMetadata where
  record_count : Nat
  index : List (String × Nat)
  deleted : List String
  last_updated : Nat
  deriving DecidableEq, Repr

/-- Embeds `HashMap::contains_key`. -/
def indexContains (m : List (String × Nat)) (k : String) : Bool :=
  m.any (fun p => p.1 == k)

/-- Embeds `HashMap::insert`: replace the binding when the key is present, otherwise
add one. -/
def indexInsert (m : List (String × Nat)) (k : String) (v : Nat) :
    List (String × Nat) :=
  if indexContains m k then
    m.map (fun p => if p.1 == k then (k, v) else p)
  else
    (k, v) :: m

/-- Embeds `HashMap::remove` (the state after removal; `delete_record` branches on
whether the key was present). -/
def indexRemove (m : List (String × Nat)) (k : String) : List (String × Nat) :=
  m.filter (fun p => p.1 != k)

/-- Embeds `HashSet::insert`. -/
def setInsert (s : List String) (k : String) : List String :=
  if s.contains k then s else k :: s

/-- Embeds `DatabaseMetadata::new`. -/
def new (now : Nat) : DatabaseMetadata :=
  { record_count := 0, index := [], deleted := [], last_updated := now }

/-- Embeds `DatabaseMetadata::add_record`: bump `record_count`, insert into `index`,
refresh `last_updated`; `deleted` is untouched. -/
def add_record (s : DatabaseMetadata) (record_id : String) (height : Nat)
    (now : Nat) : DatabaseMetadata :=
  { record_count := s.record_count + 1
    index := indexInsert s.index record_id height
    deleted := s.deleted
    last_updated := now }

/-- Embeds `DatabaseMetadata::delete_record`: when `index.remove` finds the id,
decrement `record_count`, insert the tombstone, refresh `last_updated`, and
return `true`; otherwise return `false` leaving the state unchanged. -/
def delete_record (s : DatabaseMetadata) (record_id : String) (now : Nat) :
    Bool × DatabaseMetadata :=
  if indexContains s.index record_id then
    (true,
      { record_count := s.record_count - 1
        index := indexRemove s.index record_id
        deleted := setInsert s.deleted record_id
        last_updated := now })
  else
    (false, s)

/-- Embeds `DatabaseMetadata::record_exists`:
`index.contains_key(id) && !deleted.contains(id)`. -/
def record_exists (s : DatabaseMetadata) (record_id : String) : Bool :=
  indexContains s.index record_id && !(s.deleted.contains record_id)

/-- Embeds `DatabaseMetadata::get_record_height`: `None` when tombstoned, else the
index binding. -/
def get_record_height (s : DatabaseMetadata) (record_id : String) : Option Nat :=
  if s.deleted.contains record_id then none else s.index.lookup record_id

/-- A mutation of the metadata interface, carrying its wall-clock time. -/
inductive MetaOp where
  | add (record_id : String) (height : Nat) (now : Nat)
  | del (record_id : String) (now : Nat)
  deriving DecidableEq, Repr

def applyOp (s : DatabaseMetadata) : MetaOp → DatabaseMetadata
  | .add record_id height now => add_record s record_id height now
  | .del record_id now => (delete_record s record_id now).2

def applyOps (s : DatabaseMetadata) (ops : List MetaOp) : DatabaseMetadata :=
  ops.foldl applyOp s

end Schema

/-! ### Lemmas about the descending scans of `src/database.rs` -/

namespace Database

/-- A descending fuel-bounded scan finds nothing iff no height in the scanned
window carries a hit. -/
theorem downRangeAux_findSome?_eq_none_iff {α : Type} (g : Nat → Option α) :
    ∀ (n hi : Nat),
      ((downRangeAux hi n).findSome? g = none ↔
        ∀ h, hi + 1 - n ≤ h → h ≤ hi → g h = none) := by
  intro n
  induction n with
  | zero =>
      intro hi
      constructor
      · intro _ h h1 h2
        omega
      · intro _
        rfl
  | succ n ih =>
      intro hi
      rw [downRangeAux, List.findSome?_cons]
      cases hgh : g hi with
      | some v =>
          simp only
          constructor
          · intro hcontra
            cases hcontra
          · intro hall
            have := hall hi (by omega) (by omega)
            rw [hgh] at this
            cases this
      | none =>
          simp only
          rw [ih (hi - 1)]
          constructor
          · intro hrest h h1 h2
            rcases Nat.lt_or_ge h hi with hlt | hge
            · exact hrest h (by omega) (by omega)
            · have heq : h = hi := by omega
              subst heq
              exact hgh
          · intro hall h h1 h2
            exact hall h (by omega) (by omega)

/-- A descending fuel-bounded scan returns the hit at the highest height in
the window, when every height above it in the window misses. -/
theorem downRangeAux_findSome?_highest {α : Type} (g : Nat → Option α) :
    ∀ (n hi h : Nat), hi + 1 - n ≤ h → h ≤ hi →
      (g h).isSome = true → (∀ h', h < h' → h' ≤ hi → g h' = none) →
      (downRangeAux hi n).findSome? g = g h := by
  intro n
  induction n with
  | zero =>
      intro hi h h1 h2 _ _
      omega
  | succ n ih =>
      intro hi h h1 h2 hsome hmax
      rw [downRangeAux, List.findSome?_cons]
      rcases Nat.lt_or_ge h hi with hlt | hge
      · have hhi : g hi = none := hmax hi hlt (le_refl hi)
        rw [hhi]
        simp only
        exact ih (hi - 1) h (by omega) (by omega) hsome
          (fun h' hh1 hh2 => hmax h' hh1 (by omega))
      · have heq : h = hi := by omega
        subst heq
        cases hgs : g h with
        | none =>
            rw [hgs] at hsome
            cases hsome
        | some v =>
            rfl

/-- Scanning with `findSome?` over the descending range `[hi, …, lo]` is `none` iff `g` is
`none` on all of `[lo, hi]`. -/
theorem downRange_findSome?_eq_none_iff {α : Type} (g : Nat → Option α)
    (lo hi : Nat) :
    (downRange lo hi).findSome? g = none ↔
      ∀ h, lo ≤ h → h ≤ hi → g h = none := by
  rw [downRange, downRangeAux_findSome?_eq_none_iff g (hi + 1 - lo) hi]
  constructor
  · intro hall h h1 h2
    exact hall h (by omega) (by omega)
  · intro hall h h1 h2
    exact hall h (by omega) (by omega)

/-- Scanning with `findSome?` over the descending range `[hi, …, lo]` returns the hit at
the highest height of `[lo, hi]` whose `g` is a hit. -/
theorem downRange_findSome?_highest {α : Type} (g : Nat → Option α)
    (lo hi h : Nat) (h1 : lo ≤ h) (h2 : h ≤ hi)
    (hsome : (g h).isSome = true)
    (hmax : ∀ h', h < h' → h' ≤ hi → g h' = none) :
    (downRange lo hi).findSome? g = g h :=
  downRangeAux_findSome?_highest g (hi + 1 - lo) hi h (by omega) h2 hsome hmax

/-- Any record produced by `posRecord` carries the requested key (the scan
body only returns records passing `record.key == key`). -/
theorem posRecord_key {fetch : Fetch} {key : String} {h : Nat} {r : Record}
    (hr : posRecord fetch key h = some r) : r.key = key := by
  unfold posRecord at hr
  cases hfetch : fetch h with
  | none =>
      rw [hfetch] at hr
      cases hr
  | some blobs =>
      rw [hfetch] at hr
      obtain ⟨b, _, hb⟩ := List.exists_of_findSome?_eq_some hr
      cases hbr : b.asRecord with
      | none =>
          simp only [hbr] at hb
          cases hb
      | some r' =>
          simp only [hbr] at hb
          by_cases hk : r'.key = key
          · simp only [if_pos hk] at hb
            cases hb
            exact hk
          · simp only [if_neg hk] at hb
            cases hb

/-- Folding over a flattened scan sequence equals the nested per-height folds
performed by `list_records`. -/
theorem foldl_flatMap {α β γ : Type} (f : β → List γ) (g : α → γ → α) :
    ∀ (l : List β) (init : α),
      (l.flatMap f).foldl g init
        = l.foldl (fun m x => (f x).foldl g m) init := by
  intro l
  induction l with
  | nil =>
      intro init
      rfl
  | cons x xs ih =>
      intro init
      rw [List.flatMap_cons, List.foldl_append, List.foldl_cons]
      exact ih _

/-- When the map holds a binding whose stored key is `k`, `lookup k` hits. -/
theorem lookup_isSome_of_any {m : List (String × Record)} {k : String}
    (h : m.any (fun p => p.1 == k) = true) : (m.lookup k).isSome = true := by
  induction m with
  | nil => cases h
  | cons p rest ih =>
      simp only [List.any_cons, Bool.or_eq_true, beq_iff_eq] at h
      rw [List.lookup_cons]
      by_cases hk : k = p.1
      · simp [hk]
      · have hbeq : (k == p.1) = false := by
          simpa using hk
        rw [hbeq]
        rcases h with h1 | h2
        · exact absurd h1.symm hk
        · exact ih h2

theorem firstMatch_cons (key : String) (r : Record) (rest : List Record) :
    firstMatch key (r :: rest)
      = if r.key = key then some r else firstMatch key rest := by
  unfold firstMatch
  rw [List.findSome?_cons]
  by_cases hk : r.key = key
  · simp only [if_pos hk]
  · simp only [if_neg hk]

/-- The dedup fold keeps, for each key, the first record of the sequence with
that key (bindings already in the accumulator always win). -/
theorem foldl_listStep_lookup :
    ∀ (rs : List Record) (m : List (String × Record)) (k : String),
      (rs.foldl listStep m).lookup k = (m.lookup k).or (firstMatch k rs) := by
  intro rs
  induction rs with
  | nil =>
      intro m k
      rw [List.foldl_nil]
      unfold firstMatch
      rw [List.findSome?_nil, Option.or_none]
  | cons r rest ih =>
      intro m k
      rw [List.foldl_cons, ih, firstMatch_cons]
      unfold listStep
      by_cases hin : m.any (fun p => p.1 == r.key) = true
      · rw [if_pos hin]
        by_cases hk : r.key = k
        · subst hk
          have hsome := lookup_isSome_of_any hin
          obtain ⟨v, hv⟩ := Option.isSome_iff_exists.mp hsome
          rw [hv]
          rfl
        · rw [if_neg hk]
      · rw [if_neg hin, List.lookup_append, Option.or_assoc]
        by_cases hk : r.key = k
        · subst hk
          simp
        · have hbeq : (k == r.key) = false := by
            simpa using fun hkk => hk hkk.symm
          rw [if_neg hk, List.lookup_cons, hbeq]
          simp

/-- The dedup fold preserves key-uniqueness of the accumulator. -/
theorem foldl_listStep_nodup_keys :
    ∀ (rs : List Record) (m : List (String × Record)),
      (m.map Prod.fst).Nodup → ((rs.foldl listStep m).map Prod.fst).Nodup := by
  intro rs
  induction rs with
  | nil =>
      intro m hm
      exact hm
  | cons r rest ih =>
      intro m hm
      rw [List.foldl_cons]
      apply ih
      unfold listStep
      by_cases hin : m.any (fun p => p.1 == r.key) = true
      · rw [if_pos hin]
        exact hm
      · rw [if_neg hin, List.map_append]
        simp only [List.map_cons, List.map_nil]
        refine List.Nodup.append hm (List.nodup_singleton _) ?_
        intro a ha hb
        rw [List.mem_singleton] at hb
        subst hb
        apply hin
        rw [List.any_eq_true]
        rw [List.mem_map] at ha
        obtain ⟨p, hp, hpk⟩ := ha
        exact ⟨p, hp, by simp [hpk]⟩

/-- Every binding produced by the dedup fold maps a key to a record carrying
that same key. -/
theorem foldl_listStep_entry_key :
    ∀ (rs : List Record) (m : List (String × Record)),
      (∀ p ∈ m, p.2.key = p.1) → ∀ p ∈ rs.foldl listStep m, p.2.key = p.1 := by
  intro rs
  induction rs with
  | nil =>
      intro m hm
      exact hm
  | cons r rest ih =>
      intro m hm
      rw [List.foldl_cons]
      apply ih
      unfold listStep
      by_cases hin : m.any (fun p => p.1 == r.key) = true
      · rw [if_pos hin]
        exact hm
      · rw [if_neg hin]
        intro p hp
        rw [List.mem_append] at hp
        rcases hp with hp | hp
        · exact hm p hp
        · rw [List.mem_singleton] at hp
          subst hp
          rfl

/-- The `list_records` nested loops equal one dedup fold over the flattened
descending scan sequence. -/
theorem list_records_eq_foldl (fetch : Fetch) (head : Nat)
    (metadata : Option DatabaseMetadata) :
    list_records fetch head metadata
      = (scanSeq fetch (scanStart metadata) head).foldl listStep [] := by
  unfold list_records scanSeq
  rw [foldl_flatMap]

theorem posMeta_patchFetch (fetch : Fetch) :
    posMeta (patchFetch fetch) = posMeta fetch := by
  funext h
  unfold posMeta patchFetch
  cases hf : fetch h with
  | none => rfl
  | some blobs => rfl

theorem posRecord_patchFetch (fetch : Fetch) (key : String) :
    posRecord (patchFetch fetch) key = posRecord fetch key := by
  funext h
  unfold posRecord patchFetch
  cases hf : fetch h with
  | none => rfl
  | some blobs => rfl

theorem heightRecords_patchFetch (fetch : Fetch) :
    heightRecords (patchFetch fetch) = heightRecords fetch := by
  funext h
  unfold heightRecords patchFetch
  cases hf : fetch h with
  | none => rfl
  | some blobs => rfl

end Database

/-! ### Claims about `src/database.rs` -/

namespace Database

/-- C1 (counterexample): the claim "for every `add_record` call in which the
submission to the ledger fails, the store's mutation has no effect: the
in-memory metadata is the same after the failed call as before it" is false:
at metadata `⟨5, 0, 0⟩`, submitting record `⟨"k", []⟩` at time `7` with the
submission failing, the error is surfaced (`ok = false`) but the in-memory
metadata is no longer `⟨5, 0, 0⟩` — `add_record` updates `self.metadata`
before calling `blob_submit` and never rolls it back. -/
theorem add_record_failed_submission_mutates :
    ((add_record (some ⟨5, 0, 0⟩) ⟨"k", []⟩ 7 false).ok = false)
    ∧ (add_record (some ⟨5, 0, 0⟩) ⟨"k", []⟩ 7 false).metaAfter
        ≠ some ⟨5, 0, 0⟩ := by
  decide

/-- C1 (amended): for every `add_record` call in which the submission fails,
the error is surfaced to the caller, but the in-memory metadata has already
been updated before the submission and is not rolled back: after the failed
call `record_count` is bumped by one, `last_updated` is refreshed, and
`start_height` is unchanged. -/
theorem add_record_failed_submission_state (m : DatabaseMetadata) (r : Record)
    (now : Nat) :
    ((add_record (some m) r now false).ok = false)
    ∧ (add_record (some m) r now false).metaAfter
        = some { start_height := m.start_height
                 record_count := m.record_count + 1
                 last_updated := now } :=
  ⟨rfl, rfl⟩

/-- C2: for every ledger state, head and key, `get_record` scans backward
from `head` down to the metadata's `start_height` and (i) returns `none`
(Rust `Ok(None)`, not an error) exactly when no height in the range yields a
record matching the key, (ii) returns the matching record decoded at the
highest height carrying one — the most recent write, shadowing older writes
for the same key — and (iii) any returned record has the requested key. -/
theorem get_record_correct (fetch : Fetch) (head : Nat)
    (m : DatabaseMetadata) (key : String) :
    (get_record fetch head (some m) key = none ↔
      ∀ h, m.start_height ≤ h → h ≤ head → posRecord fetch key h = none)
    ∧ (∀ h, m.start_height ≤ h → h ≤ head →
        (posRecord fetch key h).isSome = true →
        (∀ h', h < h' → h' ≤ head → posRecord fetch key h' = none) →
        get_record fetch head (some m) key = posRecord fetch key h)
    ∧ (∀ r, get_record fetch head (some m) key = some r → r.key = key) := by
  refine ⟨?_, ?_, ?_⟩
  · exact downRange_findSome?_eq_none_iff (posRecord fetch key) m.start_height head
  · intro h h1 h2 h3 h4
    exact downRange_findSome?_highest (posRecord fetch key) m.start_height head h
      h1 h2 h3 h4
  · intro r hr
    unfold get_record at hr
    obtain ⟨h, _, hh⟩ := List.exists_of_findSome?_eq_some hr
    exact posRecord_key hh

/-- Witness for C2: a ledger with a stale record for `"a"` at height 2 and a
fresh one at height 4; `get_record` returns the height-4 record. -/
theorem get_record_correct_witness :
    get_record
      (fun h =>
        if h = 2 then some [⟨none, some ⟨"a", [0]⟩⟩]
        else if h = 4 then some [⟨none, some ⟨"a", [1]⟩⟩]
        else some []) 5 (some ⟨1, 0, 0⟩) "a"
      = some ⟨"a", [1]⟩ := by
  have hw := (get_record_correct
      (fun h =>
        if h = 2 then some [⟨none, some ⟨"a", [0]⟩⟩]
        else if h = 4 then some [⟨none, some ⟨"a", [1]⟩⟩]
        else some []) 5 ⟨1, 0, 0⟩ "a").2.1
      4 (by decide) (by decide) (by rfl)
      (by
        intro h' hh1 hh2
        have he : h' = 5 := by omega
        subst he
        rfl)
  rw [hw]
  rfl

/-- C4: discovery searches exactly the window
`[max(1, head - limit), head]`, the limit defaulting to `100` when
`search_limit` is absent; it scans from `head` downward, returns `none`
exactly when no height in the window yields a blob decoding as
`DatabaseMetadata`, and otherwise returns the metadata decoded at the
highest height of the window carrying one. -/
theorem discover_database_correct (fetch : Fetch) (head : Nat)
    (search_limit : Option Nat) :
    searchStart head search_limit = max 1 (head - search_limit.getD 100)
    ∧ (discover_database fetch head search_limit = none ↔
        ∀ h, searchStart head search_limit ≤ h → h ≤ head →
          posMeta fetch h = none)
    ∧ (∀ h, searchStart head search_limit ≤ h → h ≤ head →
        (posMeta fetch h).isSome = true →
        (∀ h', h < h' → h' ≤ head → posMeta fetch h' = none) →
        discover_database fetch head search_limit = posMeta fetch h) := by
  refine ⟨?_, ?_, ?_⟩
  · unfold searchStart
    cases search_limit with
    | none =>
        simp only [Option.getD]
        split <;> omega
    | some limit =>
        simp only [Option.getD]
        split <;> omega
  · exact downRange_findSome?_eq_none_iff (posMeta fetch)
      (searchStart head search_limit) head
  · intro h h1 h2 h3 h4
    exact downRange_findSome?_highest (posMeta fetch)
      (searchStart head search_limit) head h h1 h2 h3 h4

/-- Witness for C4: metadata blobs at heights 3 and 5 with head 6 and no
`search_limit`; discovery returns the height-5 metadata. -/
theorem discover_database_correct_witness :
    discover_database
      (fun h =>
        if h = 3 then some [⟨some ⟨1, 0, 0⟩, none⟩]
        else if h = 5 then some [⟨some ⟨2, 7, 3⟩, none⟩]
        else some []) 6 none
      = some ⟨2, 7, 3⟩ := by
  have hw := (discover_database_correct
      (fun h =>
        if h = 3 then some [⟨some ⟨1, 0, 0⟩, none⟩]
        else if h = 5 then some [⟨some ⟨2, 7, 3⟩, none⟩]
        else some []) 6 none).2.2
      5 (by decide) (by decide) (by rfl)
      (by
        intro h' hh1 hh2
        have he : h' = 6 := by omega
        subst he
        rfl)
  rw [hw]
  rfl

/-- C3: `list_records` holds at most one record per key (its key column is
duplicate-free and every binding's record carries the binding's key), and for
each key the retained record is the first occurrence encountered in the
descending scan sequence — highest height first, blob order within a
height. -/
theorem list_records_dedup_most_recent (fetch : Fetch) (head : Nat)
    (metadata : Option DatabaseMetadata) :
    ((list_records fetch head metadata).map Prod.fst).Nodup
    ∧ (∀ p ∈ list_records fetch head metadata, p.2.key = p.1)
    ∧ (∀ k, (list_records fetch head metadata).lookup k
        = firstMatch k (scanSeq fetch (scanStart metadata) head)) := by
  refine ⟨?_, ?_, ?_⟩
  · rw [list_records_eq_foldl]
    exact foldl_listStep_nodup_keys _ [] (by simp)
  · intro p hp
    rw [list_records_eq_foldl] at hp
    exact foldl_listStep_entry_key _ [] (by simp) p hp
  · intro k
    rw [list_records_eq_foldl, foldl_listStep_lookup]
    simp

/-- Witness for C3: a single record for `"a"` at height 2; its binding in the
`list_records` map carries its own key. -/
theorem list_records_dedup_most_recent_witness :
    (("a", Record.mk "a" [0]) ∈
      list_records
        (fun h => if h = 2 then some [⟨none, some ⟨"a", [0]⟩⟩] else some [])
        3 (some ⟨1, 0, 0⟩))
    ∧ (Record.mk "a" [0]).key = "a" :=
  ⟨by decide,
    (list_records_dedup_most_recent
        (fun h => if h = 2 then some [⟨none, some ⟨"a", [0]⟩⟩] else some [])
        3 (some ⟨1, 0, 0⟩)).2.1 ("a", Record.mk "a" [0]) (by decide)⟩

/-- C5: for every `add_record` call made while metadata is present, the
record blob and the updated metadata blob go to the ledger in one single
batched `blob_submit` call (the submission list has exactly one batch,
holding both payloads), and the updated metadata bumps `record_count` by
exactly one and refreshes `last_updated` while `start_height` is
unchanged. -/
theorem add_record_single_batched_submission (m : DatabaseMetadata)
    (r : Record) (now : Nat) (submitOk : Bool) :
    (add_record (some m) r now submitOk).submissions
      = [[Payload.record r,
          Payload.metadata
            { start_height := m.start_height
              record_count := m.record_count + 1
              last_updated := now }]]
    ∧ (add_record (some m) r now submitOk).submissions.length = 1 :=
  ⟨rfl, rfl⟩

/-- C6: per-position fetch failures are non-fatal to all three scans —
replacing every failed fetch by an empty blob set changes none of
`discover_database`, `get_record`, `list_records` (the result equals the
result over only the successfully fetched positions), and a failed position
contributes no metadata hit, no record hit and zero items. -/
theorem scan_fetch_failures_nonfatal (fetch : Fetch) (head : Nat)
    (search_limit : Option Nat) (metadata : Option DatabaseMetadata)
    (key : String) :
    discover_database (patchFetch fetch) head search_limit
      = discover_database fetch head search_limit
    ∧ get_record (patchFetch fetch) head metadata key
      = get_record fetch head metadata key
    ∧ list_records (patchFetch fetch) head metadata
      = list_records fetch head metadata
    ∧ (∀ h, fetch h = none →
        posMeta fetch h = none ∧ posRecord fetch key h = none
          ∧ heightRecords fetch h = []) := by
  refine ⟨?_, ?_, ?_, ?_⟩
  · unfold discover_database
    rw [posMeta_patchFetch]
  · unfold get_record
    rw [posRecord_patchFetch]
  · unfold list_records
    rw [heightRecords_patchFetch]
  · intro h hf
    refine ⟨?_, ?_, ?_⟩
    · unfold posMeta
      rw [hf]
    · unfold posRecord
      rw [hf]
    · unfold heightRecords
      rw [hf]

/-- Witness for C6: a ledger whose every fetch fails yields no hits and no
items at height 3. -/
theorem scan_fetch_failures_nonfatal_witness :
    posMeta (fun _ => none) 3 = none
    ∧ posRecord (fun _ => none) "k" 3 = none
    ∧ heightRecords (fun _ => none) 3 = [] :=
  (scan_fetch_failures_nonfatal (fun _ => none) 2 none none "k").2.2.2 3 rfl

end Database

/-! ### Lemmas and claims about `src/schema.rs` -/

namespace Schema

/-- A tombstoned id is absent at the metadata interface. -/
theorem tombstone_absent {s : DatabaseMetadata} {record_id : String}
    (hdel : s.deleted.contains record_id = true) :
    record_exists s record_id = false ∧ get_record_height s record_id = none := by
  have hd : record_id ∈ s.deleted := by
    simpa using hdel
  constructor
  · simp [record_exists, hd]
  · simp [get_record_height, hd]

theorem setInsert_contains_self (s : List String) (k : String) :
    (setInsert s k).contains k = true := by
  unfold setInsert
  by_cases h : s.contains k = true
  · rw [if_pos h]
    exact h
  · rw [if_neg h]
    simp

theorem contains_setInsert_of_contains {s : List String} {j : String}
    (k : String) (h : s.contains j = true) :
    (setInsert s k).contains j = true := by
  unfold setInsert
  by_cases hc : s.contains k = true
  · rw [if_pos hc]
    exact h
  · rw [if_neg hc]
    have hj : j ∈ s := by
      simpa using h
    simp [hj]

theorem indexContains_indexInsert_self (m : List (String × Nat)) (k : String)
    (v : Nat) : indexContains (indexInsert m k v) k = true := by
  unfold indexInsert
  by_cases hc : indexContains m k = true
  · rw [if_pos hc]
    unfold indexContains at hc ⊢
    rw [List.any_map]
    rw [List.any_eq_true] at hc ⊢
    obtain ⟨p, hp, hpk⟩ := hc
    refine ⟨p, hp, ?_⟩
    simp only [Function.comp] at hpk ⊢
    simp [hpk]
  · rw [if_neg hc]
    simp [indexContains]

/-- No operation ever removes an id from the tombstone set. -/
theorem applyOp_deleted_monotone (op : MetaOp) (s : DatabaseMetadata)
    (record_id : String) (h : s.deleted.contains record_id = true) :
    (applyOp s op).deleted.contains record_id = true := by
  cases op with
  | add id height now => exact h
  | del id now =>
      show (delete_record s id now).2.deleted.contains record_id = true
      unfold delete_record
      by_cases hc : indexContains s.index id = true
      · rw [if_pos hc]
        exact contains_setInsert_of_contains id h
      · rw [if_neg hc]
        exact h

theorem applyOps_deleted_monotone :
    ∀ (ops : List MetaOp) (s : DatabaseMetadata) (record_id : String),
      s.deleted.contains record_id = true →
      (applyOps s ops).deleted.contains record_id = true := by
  intro ops
  induction ops with
  | nil =>
      intro s record_id h
      exact h
  | cons op rest ih =>
      intro s record_id h
      exact ih (applyOp s op) record_id (applyOp_deleted_monotone op s record_id h)

/-- A `delete_record` call that reports success leaves the id tombstoned. -/
theorem delete_record_true_tombstones {s : DatabaseMetadata}
    {record_id : String} {now : Nat}
    (h : (delete_record s record_id now).1 = true) :
    (delete_record s record_id now).2.deleted.contains record_id = true := by
  unfold delete_record at h ⊢
  by_cases hc : indexContains s.index record_id = true
  · rw [if_pos hc]
    exact setInsert_contains_self s.deleted record_id
  · rw [if_neg hc] at h
    cases h

theorem indexInsert_length_le (m : List (String × Nat)) (k : String) (v : Nat) :
    (indexInsert m k v).length ≤ m.length + 1 := by
  unfold indexInsert
  by_cases hc : indexContains m k = true
  · rw [if_pos hc, List.length_map]
    omega
  · rw [if_neg hc, List.length_cons]

theorem indexRemove_length_lt {m : List (String × Nat)} {k : String}
    (h : indexContains m k = true) :
    (indexRemove m k).length + 1 ≤ m.length := by
  unfold indexContains at h
  unfold indexRemove
  induction m with
  | nil => cases h
  | cons p rest ih =>
      rw [List.any_cons, Bool.or_eq_true] at h
      rw [List.filter_cons]
      by_cases hp : (p.1 == k) = true
      · have hne : (p.1 != k) = false := by
          simp [bne, hp]
        simp only [hne, Bool.false_eq_true, if_false]
        have := List.length_filter_le (fun q => q.1 != k) rest
        simp only [List.length_cons]
        omega
      · have hpf : (p.1 == k) = false := by
          simpa using hp
        have hne : (p.1 != k) = true := by
          simp [bne, hpf]
        simp only [hne, if_true]
        rcases h with h1 | h2
        · exact absurd h1 hp
        · have := ih h2
          simp only [List.length_cons]
          omega

theorem length_pos_of_indexContains {m : List (String × Nat)} {k : String}
    (h : indexContains m k = true) : 1 ≤ m.length := by
  cases m with
  | nil => cases h
  | cons p rest => simp

/-- Both operations preserve `index.len() ≤ record_count`; in the delete
case the decrement is matched by the removal of at least one binding. -/
theorem applyOp_count_invariant {s : DatabaseMetadata}
    (hs : s.index.length ≤ s.record_count) (op : MetaOp) :
    (applyOp s op).index.length ≤ (applyOp s op).record_count := by
  cases op with
  | add id height now =>
      show (indexInsert s.index id height).length ≤ s.record_count + 1
      have := indexInsert_length_le s.index id height
      omega
  | del id now =>
      show (delete_record s id now).2.index.length
          ≤ (delete_record s id now).2.record_count
      unfold delete_record
      by_cases hc : indexContains s.index id = true
      · rw [if_pos hc]
        show (indexRemove s.index id).length ≤ s.record_count - 1
        have h1 := indexRemove_length_lt hc
        omega
      · rw [if_neg hc]
        exact hs

theorem applyOps_count_invariant :
    ∀ (ops : List MetaOp) (s : DatabaseMetadata),
      s.index.length ≤ s.record_count →
      (applyOps s ops).index.length ≤ (applyOps s ops).record_count := by
  intro ops
  induction ops with
  | nil =>
      intro s hs
      exact hs
  | cons op rest ih =>
      intro s hs
      exact ih (applyOp s op) (applyOp_count_invariant hs op)

/-- C7: a tombstoned id is treated as absent regardless of the index:
`record_exists` returns `false` and `get_record_height` returns `None`, even
when the index still maps the id to a height. -/
theorem tombstone_wins (s : DatabaseMetadata) (record_id : String)
    (hdel : s.deleted.contains record_id = true) :
    record_exists s record_id = false
    ∧ get_record_height s record_id = none :=
  tombstone_absent hdel

/-- Witness for C7: a state whose index still maps `"a"` to height 3 while
`"a"` is tombstoned. -/
theorem tombstone_wins_witness :
    ((⟨1, [("a", 3)], ["a"], 0⟩ : DatabaseMetadata).deleted.contains "a" = true)
    ∧ record_exists ⟨1, [("a", 3)], ["a"], 0⟩ "a" = false
    ∧ get_record_height ⟨1, [("a", 3)], ["a"], 0⟩ "a" = none :=
  ⟨by decide,
    (tombstone_wins ⟨1, [("a", 3)], ["a"], 0⟩ "a" (by decide)).1,
    (tombstone_wins ⟨1, [("a", 3)], ["a"], 0⟩ "a" (by decide)).2⟩

/-- C8: `delete_record` on an id absent from the index returns `false` and
leaves every field — `record_count`, `index`, `deleted`, `last_updated` —
unchanged. -/
theorem delete_record_not_found_frame (s : DatabaseMetadata)
    (record_id : String) (now : Nat)
    (habs : indexContains s.index record_id = false) :
    (delete_record s record_id now).1 = false
    ∧ (delete_record s record_id now).2.record_count = s.record_count
    ∧ (delete_record s record_id now).2.index = s.index
    ∧ (delete_record s record_id now).2.deleted = s.deleted
    ∧ (delete_record s record_id now).2.last_updated = s.last_updated := by
  simp [delete_record, habs]

/-- Witness for C8: deleting `"a"` from the fresh empty metadata. -/
theorem delete_record_not_found_frame_witness :
    (indexContains (new 0).index "a" = false)
    ∧ (delete_record (new 0) "a" 5).1 = false
    ∧ (delete_record (new 0) "a" 5).2.record_count = (new 0).record_count :=
  ⟨by decide,
    (delete_record_not_found_frame (new 0) "a" 5 (by decide)).1,
    (delete_record_not_found_frame (new 0) "a" 5 (by decide)).2.1⟩

/-- C9: tombstones are permanent at the metadata interface: no sequence of
`add_record`/`delete_record` operations ever removes an id from `deleted`;
in particular, after a `delete_record` that returns `true`, a subsequent
`add_record` for the same id re-inserts it into the index yet
`record_exists` still returns `false` and `get_record_height` still returns
`None`. -/
theorem tombstones_permanent (s : DatabaseMetadata) (record_id : String) :
    (∀ ops : List MetaOp, s.deleted.contains record_id = true →
      (applyOps s ops).deleted.contains record_id = true)
    ∧ (∀ now height now2, (delete_record s record_id now).1 = true →
        indexContains
          (add_record (delete_record s record_id now).2 record_id height now2).index
          record_id = true
        ∧ record_exists
            (add_record (delete_record s record_id now).2 record_id height now2)
            record_id = false
        ∧ get_record_height
            (add_record (delete_record s record_id now).2 record_id height now2)
            record_id = none) := by
  constructor
  · intro ops h
    exact applyOps_deleted_monotone ops s record_id h
  · intro now height now2 hdel
    have ht := delete_record_true_tombstones hdel
    have ht2 : (add_record (delete_record s record_id now).2 record_id height
        now2).deleted.contains record_id = true := ht
    refine ⟨?_, tombstone_absent ht2⟩
    exact indexContains_indexInsert_self _ record_id height

/-- Witness for C9: delete `"a"` (succeeds) from a state indexing it, then
re-add it; it is back in the index but still absent at the interface. -/
theorem tombstones_permanent_witness :
    ((delete_record ⟨1, [("a", 3)], [], 0⟩ "a" 1).1 = true)
    ∧ indexContains
        (add_record (delete_record ⟨1, [("a", 3)], [], 0⟩ "a" 1).2 "a" 9 2).index
        "a" = true
    ∧ record_exists
        (add_record (delete_record ⟨1, [("a", 3)], [], 0⟩ "a" 1).2 "a" 9 2)
        "a" = false
    ∧ get_record_height
        (add_record (delete_record ⟨1, [("a", 3)], [], 0⟩ "a" 1).2 "a" 9 2)
        "a" = none :=
  ⟨by decide,
    ((tombstones_permanent ⟨1, [("a", 3)], [], 0⟩ "a").2 1 9 2 (by decide)).1,
    ((tombstones_permanent ⟨1, [("a", 3)], [], 0⟩ "a").2 1 9 2 (by decide)).2.1,
    ((tombstones_permanent ⟨1, [("a", 3)], [], 0⟩ "a").2 1 9 2 (by decide)).2.2⟩

/-- C10: starting from `DatabaseMetadata::new()`, after any sequence of
`add_record`/`delete_record` operations `record_count` dominates
`index.len()`; consequently whenever the index still holds an id — the only
situation in which `delete_record`'s decrement fires — `record_count` is at
least one, so the decrement never underflows. -/
theorem record_count_dominates_index (now : Nat) (ops : List MetaOp) :
    (applyOps (new now) ops).index.length
      ≤ (applyOps (new now) ops).record_count
    ∧ (∀ record_id,
        indexContains (applyOps (new now) ops).index record_id = true →
        1 ≤ (applyOps (new now) ops).record_count) := by
  have hinv := applyOps_count_invariant ops (new now) (by simp [new])
  refine ⟨hinv, ?_⟩
  intro record_id hc
  have := length_pos_of_indexContains hc
  omega

/-- Witness for C10: after one `add`, the index holds `"a"` and
`record_count` is positive. -/
theorem record_count_dominates_index_witness :
    ((applyOps (new 0) [MetaOp.add "a" 3 1]).index.length
      ≤ (applyOps (new 0) [MetaOp.add "a" 3 1]).record_count)
    ∧ (indexContains (applyOps (new 0) [MetaOp.add "a" 3 1]).index "a" = true)
    ∧ 1 ≤ (applyOps (new 0) [MetaOp.add "a" 3 1]).record_count :=
  ⟨(record_count_dominates_index 0 [MetaOp.add "a" 3 1]).1,
    by decide,
    (record_count_dominates_index 0 [MetaOp.add "a" 3 1]).2 "a" (by decide)⟩

end Schema

end DummyRollup
